import Mathlib

/-!
# Verification of the betman multiplayer room subsystem

A shallow embedding of the Go sources of the betman repository
(package `internal/network`: `room.go`, the server/message file and the
client file, plus the `internal/game` types they use), together with
proofs about the embedded operations.

Modelling conventions, fixed once for the whole file:

* Go `float64` money amounts are modelled as exact rationals (`ℚ`);
  the claims under study only add, subtract and multiply amounts.
* Go maps (`map[string]*RoomPlayer`, `map[string]*BetData`, ...) are
  modelled as association lists with Go-map semantics: assignment
  replaces an existing key, `delete` removes it, lookup is by key.
* Wall-clock reads (`time.Now()`) are modelled by a logical clock
  counter stored in the room; generated identifiers (`generateBetID`,
  `generateRoundID`) are derived from that counter.  No claim inspects
  a timestamp or an identifier value.
* The cryptographically random seed and the SHA-256 based coin flip of
  `generateFinalResult` are modelled as oracle inputs (`seed`, `coin`)
  to the betting-timer transition: the claims quantify over outcomes.
* `broadcastMessage` calls are recorded in an unbounded `trace` of
  event kinds on the room state; the bounded event queue itself and the
  per-connection delivery of the server are modelled separately (see
  the `roomBroadcast` and `broadcastToRoom` definitions).
* Goroutines spawned by room methods (`checkAndStartGame`'s deferred
  `StartGame`, timer callbacks) are modelled as separate transitions of
  the step relation, which captures every interleaving of the spawned
  call with other operations; `addPlayerSync` additionally provides the
  synchronous composition used by the auto-start claims.
-/

namespace Betman

/-! ## Association lists with Go-map semantics -/

/-- Lookup by key, as Go map indexing. -/
def lookupA {α : Type} : List (String × α) → String → Option α
  | [], _ => none
  | (k, v) :: rest, k' => if k = k' then some v else lookupA rest k'

/-- Assignment `m[k] = v`: replace the entry if the key is present,
append otherwise. -/
def insertA {α : Type} : List (String × α) → String → α → List (String × α)
  | [], k, v => [(k, v)]
  | (k', v') :: rest, k, v =>
    if k' = k then (k, v) :: rest else (k', v') :: insertA rest k v

/-- `delete(m, k)`: remove every entry with key `k`. -/
def eraseA {α : Type} (m : List (String × α)) (k : String) : List (String × α) :=
  m.filter (fun p => p.1 ≠ k)

theorem lookupA_insertA_self {α : Type} (m : List (String × α)) (k : String) (v : α) :
    lookupA (insertA m k v) k = some v := by
  induction m with
  | nil => simp [insertA, lookupA]
  | cons hd tl ih =>
    obtain ⟨k', v'⟩ := hd
    by_cases h : k' = k
    · simp [insertA, h, lookupA]
    · simp [insertA, h, lookupA, ih]

theorem lookupA_insertA_ne {α : Type} (m : List (String × α)) (k k' : String) (v : α)
    (h : k ≠ k') : lookupA (insertA m k v) k' = lookupA m k' := by
  induction m with
  | nil => simp [insertA, lookupA, h]
  | cons hd tl ih =>
    obtain ⟨k0, v0⟩ := hd
    by_cases h0 : k0 = k
    · subst h0
      simp [insertA, lookupA, h]
    · simp only [insertA, if_neg h0, lookupA]
      by_cases h1 : k0 = k'
      · simp [h1]
      · simp [h1, ih]

theorem lookupA_eraseA_self {α : Type} (m : List (String × α)) (k : String) :
    lookupA (eraseA m k) k = none := by
  induction m with
  | nil => simp [eraseA, lookupA]
  | cons hd tl ih =>
    obtain ⟨k0, v0⟩ := hd
    by_cases h : k0 = k
    · simpa [eraseA, h] using ih
    · simpa [eraseA, h, lookupA] using ih

theorem length_insertA_of_mem {α : Type} (m : List (String × α)) (k : String) (v w : α)
    (h : lookupA m k = some w) : (insertA m k v).length = m.length := by
  induction m with
  | nil => simp [lookupA] at h
  | cons hd tl ih =>
    obtain ⟨k0, v0⟩ := hd
    by_cases h0 : k0 = k
    · simp [insertA, h0]
    · simp only [lookupA, if_neg h0] at h
      simp [insertA, h0, ih h]

/-! ## Data model (`room.go`, message file, `game.go`) -/

/-- `game.Side` is a Go string type (`"heads"` / `"tails"`). -/
abbrev Side := String

/-- The `game.Heads` constant. -/
def headsSide : Side := "heads"

/-- The `game.Tails` constant. -/
def tailsSide : Side := "tails"

/-- `GameState`, a Go string enumeration. -/
inductive GameState
  | waiting
  | betting
  | revealing
  | result
  | paused
deriving DecidableEq, Repr

/-- The wire spelling of a `GameState` value. -/
def GameState.toStr : GameState → String
  | .waiting => "waiting"
  | .betting => "betting"
  | .revealing => "revealing"
  | .result => "result"
  | .paused => "paused"

/-- `BetData` from the message file. -/
structure BetData where
  playerID : String
  amount : ℚ
  choice : Side
  betID : String
deriving DecidableEq, Repr

/-- `RoomPlayer` from `room.go`. -/
structure RoomPlayer where
  id : String
  name : String
  balance : ℚ
  isReady : Bool
  isOnline : Bool
  lastSeen : Nat
  currentBet : Option BetData
  totalGames : Nat
  totalWins : Nat
  netProfit : ℚ
deriving DecidableEq, Repr

/-- `PlayerResult` from the message file (the `Bet` field is a pointer,
hence an `Option`). -/
structure PlayerResult where
  playerID : String
  playerName : String
  bet : Option BetData
  won : Bool
  payout : ℚ
  newBalance : ℚ
deriving DecidableEq, Repr

/-- `GameRound` from `room.go`. -/
structure GameRound where
  id : String
  startTime : Nat
  bets : List (String × BetData)
  seedCommits : List (String × String)
  seedReveals : List (String × String)
  finalSeed : String
  coinResult : Side
  results : List (String × PlayerResult)
  state : GameState
deriving DecidableEq, Repr

/-- `RoomConfig` from `room.go`. -/
structure RoomConfig where
  minPlayers : Nat
  maxPlayers : Nat
  minBet : ℚ
  maxBet : ℚ
  payoutRatio : ℚ
  requireConsensus : Bool
deriving DecidableEq, Repr

/-- `DefaultRoomConfig` (durations elided: the step relation models the
timers' firing, not real time). -/
def defaultRoomConfig : RoomConfig :=
  { minPlayers := 2
    maxPlayers := 8
    minBet := 1
    maxBet := 100
    payoutRatio := 2
    requireConsensus := true }

/-- The kinds of messages a room pushes through `broadcastMessage`. -/
inductive EventKind
  | roomUpdate
  | betPlaced
  | gameStart
  | betPhase
  | gameResult
  | timerUpdate
deriving DecidableEq, Repr

/-- The errors the room operations return. -/
inductive RoomError
  | roomFull
  | playerNotFound
  | invalidGamePhase
  | bettingClosed
  | playerAlreadyBet
  | noActiveRound
  | invalidBetAmount
  | insufficientBalance
  | notEnoughPlayers
deriving DecidableEq, Repr

/-- `GameRoom` from `room.go`.  `timerArmed` models the pending betting
timer (`r.timer`), `resultTimerArmed` the pending anonymous result
timer; `clock` is the logical wall clock; `trace` records the sequence
of `broadcastMessage` calls. -/
structure Room where
  id : String
  name : String
  players : List (String × RoomPlayer)
  gameState : GameState
  currentRound : Option GameRound
  config : RoomConfig
  timerArmed : Bool
  resultTimerArmed : Bool
  totalRounds : Nat
  lastActivity : Nat
  clock : Nat
  trace : List EventKind
deriving DecidableEq, Repr

/-- `NewGameRoom`. -/
def initRoom (id name : String) (config : RoomConfig) : Room :=
  { id := id
    name := name
    players := []
    gameState := .waiting
    currentRound := none
    config := config
    timerArmed := false
    resultTimerArmed := false
    totalRounds := 0
    lastActivity := 0
    clock := 0
    trace := [] }

/-! ## Room operations -/

/-- `generateBetID` (`time.Now().UnixNano()` replaced by the logical clock). -/
def generateBetID (r : Room) : String :=
  "bet_" ++ toString r.clock

/-- `generateRoundID`. -/
def generateRoundID (r : Room) : String :=
  "round_" ++ r.id ++ "_" ++ toString r.clock

/-- The fresh `GameRound` literal built by `StartGame`. -/
def newRound (r : Room) : GameRound :=
  { id := generateRoundID r
    startTime := r.clock
    bets := []
    seedCommits := []
    seedReveals := []
    finalSeed := ""
    coinResult := ""
    results := []
    state := .betting }

/-- `startBettingPhase`: arm the betting timer and broadcast the
bet-phase message.  The one-second countdown goroutine only emits
`timer_update` messages and is not part of the claims. -/
def startBettingPhase (r : Room) : Room :=
  { r with timerArmed := true, trace := r.trace ++ [.betPhase] }

/-- `StartGame`. -/
def startGame (r : Room) : Room × Option RoomError :=
  if r.players.length < r.config.minPlayers then
    (r, some .notEnoughPlayers)
  else if r.gameState ≠ GameState.waiting then
    (r, some .invalidGamePhase)
  else
    let rd := newRound r
    let r1 := { r with currentRound := some rd
                     , gameState := .betting
                     , totalRounds := r.totalRounds + 1
                     , clock := r.clock + 1 }
    let r2 := startBettingPhase r1
    ({ r2 with trace := r2.trace ++ [.gameStart] }, none)

/-- `checkAndStartGame`.  In Go the `StartGame` call runs on a spawned
goroutine; here it is composed synchronously.  The step relation below
instead uses the bare insertion plus a separate `startGame` step, which
covers every asynchronous interleaving. -/
def checkAndStartGame (r : Room) : Room :=
  if r.players.length ≥ r.config.minPlayers ∧ r.gameState = GameState.waiting then
    (startGame r).1
  else r

/-- `AddPlayer` without the trailing `checkAndStartGame` goroutine. -/
def addPlayer (r : Room) (pid pname : String) (bal : ℚ) : Room × Option RoomError :=
  if r.players.length ≥ r.config.maxPlayers then
    (r, some .roomFull)
  else
    let p : RoomPlayer :=
      { id := pid
        name := pname
        balance := bal
        isReady := false
        isOnline := true
        lastSeen := r.clock
        currentBet := none
        totalGames := 0
        totalWins := 0
        netProfit := 0 }
    ({ r with players := insertA r.players pid p
            , lastActivity := r.clock
            , clock := r.clock + 1
            , trace := r.trace ++ [.roomUpdate] }, none)

/-- `AddPlayer` with the auto-start goroutine run synchronously. -/
def addPlayerSync (r : Room) (pid pname : String) (bal : ℚ) : Room × Option RoomError :=
  match addPlayer r pid pname bal with
  | (r1, none) => (checkAndStartGame r1, none)
  | (r1, some e) => (r1, some e)

/-- `pauseGame`: stop the betting timer, enter `Paused`, broadcast. -/
def pauseGame (r : Room) : Room :=
  { r with timerArmed := false
         , gameState := .paused
         , trace := r.trace ++ [.roomUpdate] }

/-- The refund step of `RemovePlayer`: if the active round holds a bet
for the departing player, credit its amount back and delete the bet. -/
def refundBet (p : RoomPlayer) (round : Option GameRound) (pid : String) :
    RoomPlayer × Option GameRound :=
  match round with
  | some rd =>
    match lookupA rd.bets pid with
    | some bet =>
      ({ p with balance := p.balance + bet.amount },
       some { rd with bets := eraseA rd.bets pid })
    | none => (p, some rd)
  | none => (p, none)

/-- `RemovePlayer`.  The third component is the departing player's
record after the refund (the Go local `player`). -/
def removePlayer (r : Room) (pid : String) :
    Room × Option RoomError × Option RoomPlayer :=
  match lookupA r.players pid with
  | none => (r, some .playerNotFound, none)
  | some p =>
    let pr := refundBet p r.currentRound pid
    let players1 := eraseA r.players pid
    let r1 := { r with players := players1
                     , currentRound := pr.2
                     , lastActivity := r.clock
                     , clock := r.clock + 1 }
    let r2 := if players1.length < r.config.minPlayers ∧ r.gameState = GameState.betting
              then pauseGame r1 else r1
    ({ r2 with trace := r2.trace ++ [.roomUpdate] }, none, some pr.1)

/-- `PlaceBet`. -/
def placeBet (r : Room) (pid : String) (amount : ℚ) (choice : Side) :
    Room × Option RoomError :=
  if r.gameState ≠ GameState.betting then
    (r, some .invalidGamePhase)
  else
    match lookupA r.players pid with
    | none => (r, some .playerNotFound)
    | some player =>
      match r.currentRound with
      | none => (r, some .noActiveRound)
      | some rd =>
        if (lookupA rd.bets pid).isSome then
          (r, some .playerAlreadyBet)
        else if amount < r.config.minBet ∨ amount > r.config.maxBet then
          (r, some .invalidBetAmount)
        else if player.balance < amount then
          (r, some .insufficientBalance)
        else
          let bet : BetData :=
            { playerID := pid, amount := amount, choice := choice
              , betID := generateBetID r }
          let player1 := { player with balance := player.balance - amount
                                     , currentBet := some bet }
          let rd1 := { rd with bets := insertA rd.bets pid bet }
          ({ r with players := insertA r.players pid player1
                  , currentRound := some rd1
                  , lastActivity := r.clock
                  , clock := r.clock + 1
                  , trace := r.trace ++ [.betPlaced, .roomUpdate] }, none)

/-- The per-player balance/statistics update of `generateFinalResult`. -/
def settlePlayer (coin : Side) (ratio : ℚ) (p : RoomPlayer) (b : BetData) : RoomPlayer :=
  if b.choice = coin then
    { p with balance := p.balance + b.amount * ratio
           , totalWins := p.totalWins + 1
           , netProfit := p.netProfit + (b.amount * ratio - b.amount)
           , totalGames := p.totalGames + 1
           , currentBet := none }
  else
    { p with netProfit := p.netProfit - b.amount
           , totalGames := p.totalGames + 1
           , currentBet := none }

/-- The per-player record `generateFinalResult` stores in `Results`. -/
def mkPlayerResult (coin : Side) (ratio : ℚ) (p : RoomPlayer) (pid : String)
    (b : BetData) : PlayerResult :=
  { playerID := pid
    playerName := p.name
    bet := some b
    won := b.choice == coin
    payout := if b.choice = coin then b.amount * ratio else 0
    newBalance := (settlePlayer coin ratio p b).balance }

/-- One iteration of the settlement loop of `generateFinalResult`.
A bet whose player is absent from the roster would make the Go code
dereference a nil pointer; that branch is unreachable because bets are
deleted when their player leaves. -/
def settleStep (coin : Side) (ratio : ℚ)
    (acc : List (String × RoomPlayer) × List (String × PlayerResult))
    (e : String × BetData) :
    List (String × RoomPlayer) × List (String × PlayerResult) :=
  match lookupA acc.1 e.1 with
  | none => acc
  | some p =>
    (insertA acc.1 e.1 (settlePlayer coin ratio p e.2),
     insertA acc.2 e.1 (mkPlayerResult coin ratio p e.1 e.2))

/-- `generateFinalResult`, with the random seed and the resulting coin
side as oracle inputs. -/
def generateFinalResult (players : List (String × RoomPlayer)) (rd : GameRound)
    (ratio : ℚ) (seed : String) (coin : Side) :
    List (String × RoomPlayer) × GameRound :=
  let acc := rd.bets.foldl (settleStep coin ratio) (players, rd.results)
  (acc.1, { rd with finalSeed := seed, coinResult := coin, results := acc.2 })

/-- `startResultPhase`: enter `Result`, broadcast the result message,
arm the single-shot result timer. -/
def startResultPhase (r : Room) : Room :=
  { r with gameState := .result
         , resultTimerArmed := true
         , trace := r.trace ++ [.gameResult] }

/-- `endBettingPhase`, the betting-timer callback.  A `Betting` room
always holds a round (proved below as the reachability invariant); the
`none` branch mirrors the fact that the Go code would crash there and
is never taken on reachable rooms. -/
def endBettingPhase (r : Room) (seed : String) (coin : Side) : Room :=
  if r.gameState ≠ GameState.betting then r
  else
    match r.currentRound with
    | none => r
    | some rd =>
      let r1 := { r with gameState := GameState.revealing, timerArmed := false }
      if rd.bets.isEmpty then
        { r1 with gameState := .waiting
                , currentRound := none
                , trace := r1.trace ++ [.roomUpdate] }
      else
        let out := generateFinalResult r1.players rd r1.config.payoutRatio seed coin
        startResultPhase { r1 with players := out.1, currentRound := some out.2 }

/-- The result-timer callback: clear the round, return to `Waiting`,
broadcast, and report whether a new round was scheduled (the Go code
spawns a delayed `StartGame` goroutine when the roster is at least the
minimum; that `startGame` call is a separate step of the relation). -/
def resultTimerExpire (r : Room) : Room × Bool :=
  ({ r with gameState := .waiting
          , currentRound := none
          , resultTimerArmed := false
          , trace := r.trace ++ [.roomUpdate] },
   decide (r.players.length ≥ r.config.minPlayers))

/-! ## The step relation of a room -/

/-- One externally triggered transition of a room: a lock-holding
operation or a timer callback.  Timer callbacks are modelled by their
own guards: the betting-timer body checks the phase itself, and the
result timer is pending exactly while `resultTimerArmed` holds. -/
inductive RoomStep : Room → Room → Prop
  | add (r : Room) (pid pname : String) (bal : ℚ) :
      RoomStep r (addPlayer r pid pname bal).1
  | remove (r : Room) (pid : String) :
      RoomStep r (removePlayer r pid).1
  | bet (r : Room) (pid : String) (amount : ℚ) (choice : Side) :
      RoomStep r (placeBet r pid amount choice).1
  | start (r : Room) :
      RoomStep r (startGame r).1
  | bettingTimer (r : Room) (seed : String) (coin : Side) :
      RoomStep r (endBettingPhase r seed coin)
  | resultTimer (r : Room) (h : r.resultTimerArmed = true) :
      RoomStep r (resultTimerExpire r).1

/-- Rooms reachable from a fresh `NewGameRoom` by any operation sequence. -/
def Reachable (id name : String) (config : RoomConfig) (r : Room) : Prop :=
  Relation.ReflTransGen RoomStep (initRoom id name config) r

/-! ## Remote client reconnection (client file) -/

/-- The externally visible actions of the client's disconnect/reconnect
path: the `connection lost` error pushed by `handleDisconnect`, each
`Connect` attempt made by `attemptReconnect`, the terminal
`max reconnection attempts reached` error, and the automatic rejoin. -/
inductive ClientEvent
  | connectionLost
  | connectAttempt
  | terminalError
  | rejoinRoom (roomID : String)
deriving DecidableEq, Repr

/-- `attemptReconnect`: increment `reconnectCount`, sleep for the fixed
delay (not modelled), call `Connect`, and either stop on success
(`Connect` resets the counter to zero, then the room is rejoined),
recurse while the budget remains, or push the terminal error.
`connectOk n` is the outcome oracle for the `n`-th attempt. -/
def attemptReconnect (connectOk : Nat → Bool) (maxReconnects : Nat) (roomID : String)
    (count : Nat) : Nat × List ClientEvent :=
  let c := count + 1
  if connectOk c then
    (0, [ClientEvent.connectAttempt] ++
        (if roomID = "" then [] else [ClientEvent.rejoinRoom roomID]))
  else if _h : c < maxReconnects then
    let rest := attemptReconnect connectOk maxReconnects roomID c
    (rest.1, ClientEvent.connectAttempt :: rest.2)
  else
    (c, [ClientEvent.connectAttempt, ClientEvent.terminalError])
termination_by maxReconnects - count
decreasing_by omega

/-- `handleDisconnect`: mark the client disconnected, surface the
`connection lost` error, and spawn `attemptReconnect` when a retry
budget is configured and not yet exhausted.  Returns the final
`reconnectCount` and the emitted events. -/
def handleDisconnect (connectOk : Nat → Bool) (maxReconnects count : Nat)
    (roomID : String) : Nat × List ClientEvent :=
  if 0 < maxReconnects ∧ count < maxReconnects then
    let rest := attemptReconnect connectOk maxReconnects roomID count
    (rest.1, ClientEvent.connectionLost :: rest.2)
  else
    (count, [ClientEvent.connectionLost])

/-! ## Wire envelopes (message file) -/

/-- JSON values, the common target of `encoding/json`. -/
inductive Json
  | null
  | bool (b : Bool)
  | num (q : ℚ)
  | str (s : String)
  | arr (elems : List Json)
  | obj (fields : List (String × Json))

/-- The dynamic Go value stored in `Message.Data` (an `interface{}`):
either one of the typed payload structs the producers put there, or the
generic value `json.Unmarshal` produces into an empty interface.
Go `nil` is `GoValue.json Json.null`. -/
inductive GoValue
  | json (j : Json)
  | strData (s : String)
  | betData (playerID : String) (amount : ℚ) (choice : Side) (betID : String)
  | roomJoinData (playerName : String) (balance : ℚ)
  | timerData (phase : GameState) (secondsLeft totalSeconds : Int)
  | errorData (code message details : String)
  | seedCommitData (playerID seedHash roundID : String)
  | seedRevealData (playerID seed roundID : String)

/-- The JSON encoding of each payload, with fields in Go struct
declaration order; the `omitempty` tag on `ErrorData.Details` omits the
field when the string is empty. -/
def encodeGoValue : GoValue → Json
  | .json j => j
  | .strData s => .str s
  | .betData pid amount choice betID =>
    .obj [("player_id", .str pid), ("amount", .num amount),
          ("choice", .str choice), ("bet_id", .str betID)]
  | .roomJoinData pname bal =>
    .obj [("player_name", .str pname), ("balance", .num bal)]
  | .timerData phase left total =>
    .obj [("phase", .str phase.toStr), ("seconds_left", .num left),
          ("total_seconds", .num total)]
  | .errorData code message details =>
    .obj ([("code", .str code), ("message", .str message)] ++
          (if details = "" then [] else [("details", .str details)]))
  | .seedCommitData pid seedHash roundID =>
    .obj [("player_id", .str pid), ("seed_hash", .str seedHash),
          ("round_id", .str roundID)]
  | .seedRevealData pid seed roundID =>
    .obj [("player_id", .str pid), ("seed", .str seed),
          ("round_id", .str roundID)]

/-- `Message`, the wire envelope.  `MessageType` is a Go string type;
the RFC3339 serialization of `time.Time` is elided, the timestamp is
carried as its serialized string. -/
structure WireMessage where
  type : String
  roomID : String
  playerID : String
  timestamp : String
  data : GoValue

/-- `Message.ToJSON`, at the JSON-value level (byte serialization
elided). -/
def toJSONMessage (m : WireMessage) : Json :=
  .obj [("type", .str m.type), ("room_id", .str m.roomID),
        ("player_id", .str m.playerID), ("timestamp", .str m.timestamp),
        ("data", encodeGoValue m.data)]

/-- `json.Unmarshal` of one string-typed struct field: a missing field
keeps the zero value, a non-string value is a decoding error. -/
def asStr : Option Json → Option String
  | none => some ""
  | some (.str s) => some s
  | some _ => none

/-- `FromJSON`: decode an envelope.  The `data` field lands in an
`interface{}`, hence always as a generic JSON value. -/
def fromJSONMessage : Json → Option WireMessage
  | .obj fields => do
    let t ← asStr (lookupA fields "type")
    let rid ← asStr (lookupA fields "room_id")
    let pid ← asStr (lookupA fields "player_id")
    let ts ← asStr (lookupA fields "timestamp")
    let d := match lookupA fields "data" with
      | none => GoValue.json Json.null
      | some j => GoValue.json j
    some { type := t, roomID := rid, playerID := pid, timestamp := ts, data := d }
  | _ => none

/-! ## Bounded queues and per-room relay (server file, `room.go`) -/

/-- The room's `broadcastMessage`: a non-blocking send on the bounded
event channel; when the buffer is full the select falls through to the
default branch, which drops the new message and logs a warning.  The
second component reports that drop (the diagnostic). -/
def roomBroadcast (queue : List EventKind) (capacity : Nat) (m : EventKind) :
    List EventKind × Bool :=
  if queue.length < capacity then (queue ++ [m], false) else (queue, true)

/-- A server-side client connection entry: identity, the room it is
mapped to in `Server.clients`, and its bounded outbound buffer. -/
structure ClientConn where
  cid : Nat
  room : Option String
  send : List Json
  sendCap : Nat

/-- The non-blocking send on a client's outbound channel: `none` means
the buffer was saturated and the connection is closed and removed. -/
def trySend (c : ClientConn) (d : Json) : Option ClientConn :=
  if c.send.length < c.sendCap then some { c with send := c.send ++ [d] } else none

/-- `broadcastToRoom`: deliver `d` to every connection mapped to the
room, forcibly dropping any such connection whose buffer is full;
connections mapped elsewhere are untouched. -/
def broadcastToRoom (clients : List ClientConn) (roomID : String) (d : Json) :
    List ClientConn :=
  clients.filterMap (fun c => if c.room = some roomID then trySend c d else some c)

/-! ## C1: PlaceBet error taxonomy and balance deduction -/

/-- C1.  `PlaceBet(playerId, amount, side)` fails with `InvalidPhase`
unless the phase is `Betting`; with `PlayerNotFound` if the player is
not in the roster; with `DuplicateBet` if the player already has a bet
in the current round; with `InvalidAmount` if the amount is outside
`[MinBet, MaxBet]`; with `InsufficientBalance` if the balance is below
the amount; and on success the old balance equals the new balance plus
the amount and the bet is recorded in the round. -/
theorem placeBet_spec (r : Room) (pid : String) (amount : ℚ) (choice : Side) :
    (r.gameState ≠ GameState.betting →
      (placeBet r pid amount choice).2 = some RoomError.invalidGamePhase) ∧
    (r.gameState = GameState.betting → lookupA r.players pid = none →
      (placeBet r pid amount choice).2 = some RoomError.playerNotFound) ∧
    (∀ p rd, r.gameState = GameState.betting → lookupA r.players pid = some p →
      r.currentRound = some rd → (lookupA rd.bets pid).isSome →
      (placeBet r pid amount choice).2 = some RoomError.playerAlreadyBet) ∧
    (∀ p rd, r.gameState = GameState.betting → lookupA r.players pid = some p →
      r.currentRound = some rd → lookupA rd.bets pid = none →
      (amount < r.config.minBet ∨ amount > r.config.maxBet) →
      (placeBet r pid amount choice).2 = some RoomError.invalidBetAmount) ∧
    (∀ p rd, r.gameState = GameState.betting → lookupA r.players pid = some p →
      r.currentRound = some rd → lookupA rd.bets pid = none →
      r.config.minBet ≤ amount → amount ≤ r.config.maxBet →
      p.balance < amount →
      (placeBet r pid amount choice).2 = some RoomError.insufficientBalance) ∧
    (∀ p rd, r.gameState = GameState.betting → lookupA r.players pid = some p →
      r.currentRound = some rd → lookupA rd.bets pid = none →
      r.config.minBet ≤ amount → amount ≤ r.config.maxBet →
      amount ≤ p.balance →
      (placeBet r pid amount choice).2 = none ∧
      (∃ p1, lookupA (placeBet r pid amount choice).1.players pid = some p1 ∧
        p.balance = p1.balance + amount) ∧
      (∃ rd1, (placeBet r pid amount choice).1.currentRound = some rd1 ∧
        lookupA rd1.bets pid =
          some { playerID := pid, amount := amount, choice := choice
                 , betID := generateBetID r })) := by
  refine ⟨?_, ?_, ?_, ?_, ?_, ?_⟩
  · intro h
    simp [placeBet, h]
  · intro h hplayer
    simp [placeBet, h, hplayer]
  · intro p rd h hplayer hround hdup
    simp [placeBet, h, hplayer, hround, hdup]
  · intro p rd h hplayer hround hdup hamount
    simp [placeBet, h, hplayer, hround, hdup, hamount]
  · intro p rd h hplayer hround hdup hmin hmax hbal
    have hnoamount : ¬ (amount < r.config.minBet ∨ amount > r.config.maxBet) := by
      push_neg
      exact ⟨hmin, hmax⟩
    simp [placeBet, h, hplayer, hround, hdup, hnoamount, hbal]
  · intro p rd h hplayer hround hdup hmin hmax hbal
    have hnoamount : ¬ (amount < r.config.minBet ∨ amount > r.config.maxBet) := by
      push_neg
      exact ⟨hmin, hmax⟩
    have hnobal : ¬ p.balance < amount := not_lt.mpr hbal
    refine ⟨?_, ?_, ?_⟩
    · simp [placeBet, h, hplayer, hround, hdup, hnoamount, hnobal]
    · refine Exists.intro
        ({ p with balance := p.balance - amount
                , currentBet := some { playerID := pid, amount := amount
                                     , choice := choice, betID := generateBetID r } })
        ⟨?_, ?_⟩
      · simp [placeBet, h, hplayer, hround, hdup, hnoamount, hnobal,
              lookupA_insertA_self]
      · simp
    · refine Exists.intro
        ({ rd with bets := insertA rd.bets pid { playerID := pid, amount := amount, choice := choice, betID := generateBetID r } })
        ⟨?_, ?_⟩
      · simp [placeBet, h, hplayer, hround, hdup, hnoamount, hnobal]
      · simp [lookupA_insertA_self]

/-- C1 witness data: a concrete two-player betting room with an empty round. -/
def c1Player : RoomPlayer :=
  { id := "p1", name := "P1", balance := 100, isReady := false, isOnline := true
    , lastSeen := 0, currentBet := none, totalGames := 0, totalWins := 0, netProfit := 0 }

/-- The empty round of the witness room. -/
def c1Round : GameRound :=
  { id := "round_room1_2", startTime := 2, bets := []
    , seedCommits := [], seedReveals := [], finalSeed := ""
    , coinResult := "", results := [], state := .betting }

/-- A concrete two-player room in the betting phase with an empty round. -/
def c1Room : Room :=
  { id := "room1", name := "Room 1"
    , players := [("p1", c1Player), ("p2", { c1Player with id := "p2", name := "P2" })]
    , gameState := .betting
    , currentRound := some c1Round
    , config := defaultRoomConfig
    , timerArmed := true, resultTimerArmed := false, totalRounds := 1
    , lastActivity := 2, clock := 3, trace := [] }

theorem placeBet_spec_witness :
    (placeBet c1Room "p1" 10 headsSide).2 = none ∧
    (∃ p1, lookupA (placeBet c1Room "p1" 10 headsSide).1.players "p1" = some p1 ∧
      c1Player.balance = p1.balance + 10) ∧
    (∃ rd1, (placeBet c1Room "p1" 10 headsSide).1.currentRound = some rd1 ∧
      lookupA rd1.bets "p1" =
        some { playerID := "p1", amount := 10, choice := headsSide
               , betID := generateBetID c1Room }) :=
  (placeBet_spec c1Room "p1" 10 headsSide).2.2.2.2.2 c1Player c1Round
    (by decide) (by decide) (by decide) (by decide) (by decide) (by decide) (by decide)

/-! ## C5: AddPlayer capacity, auto-start, idempotence -/

theorem startGame_players (r : Room) : (startGame r).1.players = r.players := by
  simp only [startGame, startBettingPhase]
  split
  · rfl
  · split <;> rfl

theorem checkAndStartGame_players (r : Room) :
    (checkAndStartGame r).players = r.players := by
  simp only [checkAndStartGame]
  split
  · exact startGame_players r
  · rfl

/-- C5.  `AddPlayer` fails with `RoomFull` at capacity leaving the room
unchanged; otherwise it inserts the player, and if the roster thereby
reaches the minimum while the phase is `Waiting` a betting round is
started; calling it while a round is already `Betting` never creates or
replaces a round. -/
theorem addPlayer_spec (r : Room) (pid pname : String) (bal : ℚ) :
    (r.players.length ≥ r.config.maxPlayers →
      addPlayerSync r pid pname bal = (r, some RoomError.roomFull)) ∧
    (r.players.length < r.config.maxPlayers →
      (addPlayerSync r pid pname bal).2 = none ∧
      (lookupA (addPlayerSync r pid pname bal).1.players pid).isSome) ∧
    (r.players.length < r.config.maxPlayers → r.gameState = GameState.waiting →
      (addPlayer r pid pname bal).1.players.length ≥ r.config.minPlayers →
      (addPlayerSync r pid pname bal).1.gameState = GameState.betting ∧
      ∃ rd, (addPlayerSync r pid pname bal).1.currentRound = some rd ∧ rd.bets = []) ∧
    (r.gameState = GameState.betting →
      (addPlayerSync r pid pname bal).1.currentRound = r.currentRound ∧
      (addPlayerSync r pid pname bal).1.gameState = GameState.betting) := by
  refine ⟨?_, ?_, ?_, ?_⟩
  · intro hfull
    simp [addPlayerSync, addPlayer, hfull]
  · intro hcap
    have hcap2 : ¬ r.players.length ≥ r.config.maxPlayers := not_le.mpr hcap
    constructor
    · simp [addPlayerSync, addPlayer, hcap2]
    · simp [addPlayerSync, addPlayer, hcap2, checkAndStartGame_players,
            lookupA_insertA_self]
  · intro hcap hwait hmin
    have hcap2 : ¬ r.players.length ≥ r.config.maxPlayers := not_le.mpr hcap
    simp only [addPlayer, if_neg hcap2] at hmin
    have hnotlt : ¬ (insertA r.players pid
        { id := pid, name := pname, balance := bal, isReady := false
          , isOnline := true, lastSeen := r.clock, currentBet := none
          , totalGames := 0, totalWins := 0, netProfit := 0 }).length <
        r.config.minPlayers := not_lt.mpr hmin
    simp [addPlayerSync, addPlayer, hcap2, checkAndStartGame, startGame,
          startBettingPhase, hwait, hmin, hnotlt, newRound]
  · intro hbet
    by_cases hcap : r.players.length ≥ r.config.maxPlayers
    · simp [addPlayerSync, addPlayer, hcap, hbet]
    · have : ¬ r.gameState = GameState.waiting := by
        rw [hbet]
        simp
      simp [addPlayerSync, addPlayer, hcap, checkAndStartGame, this, hbet]

theorem addPlayer_spec_witness :
    c1Room.gameState = GameState.betting ∧
    (addPlayerSync c1Room "p3" "P3" 50).1.currentRound = c1Room.currentRound ∧
    (addPlayerSync c1Room "p3" "P3" 50).1.gameState = GameState.betting :=
  ⟨by decide, (addPlayer_spec c1Room "p3" "P3" 50).2.2.2 (by decide)⟩

/-! ## C10: AddPlayer with an existing id replaces the entry -/

/-- C10.  Re-adding an existing player id below capacity succeeds and
replaces the roster entry with a fresh player (new balance, no current
bet), while the current round — and hence any bet that player placed in
it — is untouched, and the roster size does not grow. -/
theorem addPlayer_rejoin_spec (r : Room) (pid pname : String) (bal : ℚ)
    (oldP : RoomPlayer)
    (hcap : r.players.length < r.config.maxPlayers)
    (hold : lookupA r.players pid = some oldP)
    (hphase : r.gameState ≠ GameState.waiting) :
    (addPlayerSync r pid pname bal).2 = none ∧
    lookupA (addPlayerSync r pid pname bal).1.players pid =
      some { id := pid, name := pname, balance := bal, isReady := false
             , isOnline := true, lastSeen := r.clock, currentBet := none
             , totalGames := 0, totalWins := 0, netProfit := 0 } ∧
    (addPlayerSync r pid pname bal).1.currentRound = r.currentRound ∧
    (addPlayerSync r pid pname bal).1.players.length = r.players.length := by
  have hcap2 : ¬ r.players.length ≥ r.config.maxPlayers := not_le.mpr hcap
  have hlen := length_insertA_of_mem r.players pid
    ({ id := pid, name := pname, balance := bal, isReady := false
       , isOnline := true, lastSeen := r.clock, currentBet := none
       , totalGames := 0, totalWins := 0, netProfit := 0 }) oldP hold
  simp [addPlayerSync, addPlayer, hcap2, checkAndStartGame, hphase,
        lookupA_insertA_self, hlen]

/-- C10/C6 witness data: the witness room after `p1` has bet 10 on
heads (balances written as literals so the terms are closed values). -/
def c6Bet : BetData :=
  { playerID := "p1", amount := 10, choice := headsSide, betID := "bet_3" }

def c6P1 : RoomPlayer :=
  { c1Player with balance := 90, currentBet := some c6Bet }

def c6Round : GameRound :=
  { c1Round with bets := [("p1", c6Bet)] }

def c6Room : Room :=
  { c1Room with
      players := [("p1", c6P1), ("p2", { c1Player with id := "p2", name := "P2" })]
    , currentRound := some c6Round }

theorem addPlayer_rejoin_spec_witness :
    (addPlayerSync c6Room "p1" "P1" 500).2 = none ∧
    lookupA (addPlayerSync c6Room "p1" "P1" 500).1.players "p1" =
      some { id := "p1", name := "P1", balance := 500, isReady := false
             , isOnline := true, lastSeen := c6Room.clock, currentBet := none
             , totalGames := 0, totalWins := 0, netProfit := 0 } ∧
    (addPlayerSync c6Room "p1" "P1" 500).1.currentRound = c6Room.currentRound ∧
    (addPlayerSync c6Room "p1" "P1" 500).1.players.length = c6Room.players.length :=
  addPlayer_rejoin_spec c6Room "p1" "P1" 500 c6P1
    (by decide) (by decide) (by decide)

/-! ## C6: RemovePlayer refund and pause -/

/-- C6.  `RemovePlayer` fails with `PlayerNotFound` for an unknown id
leaving the room unchanged; otherwise any open bet in the active round
is refunded to the departing player's balance and deleted from the
round before removal; and if the roster thereby drops below the minimum
while `Betting`, the room pauses and the betting timer is cancelled. -/
theorem removePlayer_spec (r : Room) (pid : String) :
    (lookupA r.players pid = none →
      removePlayer r pid = (r, some RoomError.playerNotFound, none)) ∧
    (∀ p rd b, lookupA r.players pid = some p → r.currentRound = some rd →
      lookupA rd.bets pid = some b →
      (removePlayer r pid).2.2 = some { p with balance := p.balance + b.amount } ∧
      (removePlayer r pid).1.currentRound =
        some { rd with bets := eraseA rd.bets pid } ∧
      lookupA (removePlayer r pid).1.players pid = none) ∧
    (∀ p, lookupA r.players pid = some p →
      (eraseA r.players pid).length < r.config.minPlayers →
      r.gameState = GameState.betting →
      (removePlayer r pid).1.gameState = GameState.paused ∧
      (removePlayer r pid).1.timerArmed = false) := by
  refine ⟨?_, ?_, ?_⟩
  · intro h
    simp [removePlayer, h]
  · intro p rd b hp hround hbet
    refine ⟨?_, ?_, ?_⟩
    · simp [removePlayer, hp, hround, refundBet, hbet]
    · simp only [removePlayer, hp, hround, refundBet, hbet]
      split <;> simp [pauseGame]
    · simp only [removePlayer, hp, hround, refundBet, hbet]
      split <;> simp [pauseGame, lookupA_eraseA_self]
  · intro p hp hlen hbetting
    simp only [removePlayer, hp]
    rw [if_pos ⟨hlen, hbetting⟩]
    exact ⟨rfl, rfl⟩

theorem removePlayer_spec_witness :
    (removePlayer c6Room "p1").2.2 =
      some { c6P1 with balance := c6P1.balance + c6Bet.amount } ∧
    (removePlayer c6Room "p1").1.currentRound =
      some { c6Round with bets := eraseA c6Round.bets "p1" } ∧
    lookupA (removePlayer c6Room "p1").1.players "p1" = none ∧
    (removePlayer c6Room "p1").1.gameState = GameState.paused ∧
    (removePlayer c6Room "p1").1.timerArmed = false := by
  obtain ⟨h1, h2, h3⟩ := (removePlayer_spec c6Room "p1").2.1 c6P1 c6Round c6Bet
    (by decide) (by decide) (by decide)
  obtain ⟨h4, h5⟩ := (removePlayer_spec c6Room "p1").2.2 c6P1
    (by decide) (by decide) (by decide)
  exact ⟨h1, h2, h3, h4, h5⟩

/-! ## C4: betting-timer expiry and result-timer expiry -/

/-- C4.  On betting-timer expiry while `Betting`: with zero bets the
round is discarded, the phase returns to `Waiting`, only a room-update
(never a result) message is emitted and no balance changes; with bets
the phase ends at `Result`, the result message is emitted and the
single-shot result timer is armed.  The result timer's expiry clears
the round, returns to `Waiting`, and schedules a new round exactly when
the roster is at least the minimum. -/
theorem endBettingPhase_spec (r : Room) (seed : String) (coin : Side) :
    (∀ rd, r.gameState = GameState.betting → r.currentRound = some rd →
      (rd.bets = [] →
        endBettingPhase r seed coin =
          { r with gameState := .waiting, currentRound := none, timerArmed := false
                 , trace := r.trace ++ [.roomUpdate] }) ∧
      (rd.bets ≠ [] →
        (endBettingPhase r seed coin).gameState = GameState.result ∧
        (endBettingPhase r seed coin).trace = r.trace ++ [EventKind.gameResult] ∧
        (endBettingPhase r seed coin).resultTimerArmed = true ∧
        (endBettingPhase r seed coin).currentRound =
          some (generateFinalResult r.players rd r.config.payoutRatio seed coin).2)) ∧
    (∀ r2 : Room,
      (resultTimerExpire r2).1.gameState = GameState.waiting ∧
      (resultTimerExpire r2).1.currentRound = none ∧
      ((resultTimerExpire r2).2 = true ↔ r2.players.length ≥ r2.config.minPlayers)) := by
  constructor
  · intro rd hphase hround
    constructor
    · intro hempty
      simp [endBettingPhase, hphase, hround, hempty]
    · intro hnonempty
      simp [endBettingPhase, hphase, hround, hnonempty, startResultPhase,
            List.isEmpty_iff]
  · intro r2
    simp [resultTimerExpire]

/-- C4 witness: the zero-bet expiry on the concrete betting room, and
the result-timer expiry afterwards. -/
theorem endBettingPhase_spec_witness :
    (endBettingPhase c1Room "seed" headsSide =
      { c1Room with gameState := .waiting, currentRound := none, timerArmed := false
                  , trace := c1Room.trace ++ [.roomUpdate] }) ∧
    (resultTimerExpire c1Room).1.gameState = GameState.waiting ∧
    (resultTimerExpire c1Room).1.currentRound = none ∧
    ((resultTimerExpire c1Room).2 = true ↔
      c1Room.players.length ≥ c1Room.config.minPlayers) := by
  obtain ⟨h1, _⟩ := (endBettingPhase_spec c1Room "seed" headsSide).1 c1Round
    (by decide) (by decide)
  exact ⟨h1 (by decide), (endBettingPhase_spec c1Room "seed" headsSide).2 c1Room⟩

/-! ## C7: bounded reconnection budget of the remote client -/

theorem attemptReconnect_allFail (maxReconnects : Nat) (roomID : String) :
    ∀ count, count < maxReconnects →
      attemptReconnect (fun _ => false) maxReconnects roomID count =
        (maxReconnects,
         List.replicate (maxReconnects - count) ClientEvent.connectAttempt ++
           [ClientEvent.terminalError]) := by
  intro count hlt
  generalize hk : maxReconnects - count = k
  induction k generalizing count with
  | zero => omega
  | succ k ih =>
    rw [attemptReconnect, if_neg Bool.false_ne_true]
    by_cases hrec : count + 1 < maxReconnects
    · rw [dif_pos hrec, ih (count + 1) hrec (by omega)]
      simp [List.replicate_succ]
    · rw [dif_neg hrec]
      have hmax : maxReconnects = count + 1 := by omega
      have hk1 : k = 0 := by omega
      subst hk1
      simp [hmax, List.replicate]

/-- C7.  With a positive retry budget `N`, after an unexpected
disconnect with every reconnect attempt failing, exactly `N` attempts
are made, the terminal error is surfaced after the `N`-th failure and
nothing follows it; a further disconnect with the budget exhausted
makes no attempt at all. -/
theorem reconnect_budget_spec (maxReconnects : Nat) (roomID : String)
    (hpos : 0 < maxReconnects) :
    handleDisconnect (fun _ => false) maxReconnects 0 roomID =
      (maxReconnects,
       ClientEvent.connectionLost ::
         (List.replicate maxReconnects ClientEvent.connectAttempt ++
           [ClientEvent.terminalError])) ∧
    handleDisconnect (fun _ => false) maxReconnects maxReconnects roomID =
      (maxReconnects, [ClientEvent.connectionLost]) := by
  constructor
  · have h := attemptReconnect_allFail maxReconnects roomID 0 hpos
    simp [handleDisconnect, hpos, h]
  · simp [handleDisconnect]

theorem reconnect_budget_spec_witness :
    0 < 3 ∧
    handleDisconnect (fun _ => false) 3 0 "room1" =
      (3, [ClientEvent.connectionLost, ClientEvent.connectAttempt,
           ClientEvent.connectAttempt, ClientEvent.connectAttempt,
           ClientEvent.terminalError]) ∧
    handleDisconnect (fun _ => false) 3 3 "room1" =
      (3, [ClientEvent.connectionLost]) := by
  obtain ⟨h1, h2⟩ := reconnect_budget_spec 3 "room1" (by decide)
  refine ⟨by decide, ?_, h2⟩
  rw [h1]
  rfl

/-! ## C9: non-blocking event queue and per-room relay -/

/-- C9.  The room's event broadcast never blocks: below capacity the
message is enqueued, at capacity the newest message is dropped with a
diagnostic.  Relaying to the room's members delivers the payload to
every connection mapped to the room whose buffer has space, forcibly
removes exactly the mapped connections whose buffer is saturated, and
leaves connections of other rooms untouched. -/
theorem broadcast_spec (queue : List EventKind) (capacity : Nat) (m : EventKind)
    (clients : List ClientConn) (roomID : String) (d : Json) (c : ClientConn)
    (hid : (clients.map ClientConn.cid).Nodup) (hc : c ∈ clients) :
    (queue.length < capacity → roomBroadcast queue capacity m = (queue ++ [m], false)) ∧
    (capacity ≤ queue.length → roomBroadcast queue capacity m = (queue, true)) ∧
    (c.room = some roomID → c.send.length < c.sendCap →
      { c with send := c.send ++ [d] } ∈ broadcastToRoom clients roomID d) ∧
    (c.room = some roomID → c.sendCap ≤ c.send.length →
      ∀ c2 ∈ broadcastToRoom clients roomID d, c2.cid ≠ c.cid) ∧
    (c.room ≠ some roomID → c ∈ broadcastToRoom clients roomID d) := by
  refine ⟨?_, ?_, ?_, ?_, ?_⟩
  · intro h
    simp [roomBroadcast, h]
  · intro h
    simp [roomBroadcast, not_lt.mpr h]
  · intro hroom hspace
    exact List.mem_filterMap.mpr ⟨c, hc, by simp [hroom, trySend, hspace]⟩
  · intro hroom hfull c2 hc2 hcid
    obtain ⟨a, ha, hfa⟩ := List.mem_filterMap.mp hc2
    have hacid : a.cid = c2.cid := by
      by_cases har : a.room = some roomID
      · simp only [har, if_pos, trySend] at hfa
        by_cases hs : a.send.length < a.sendCap
        · rw [if_pos hs] at hfa
          cases hfa
          rfl
        · rw [if_neg hs] at hfa
          cases hfa
      · rw [if_neg har] at hfa
        cases hfa
        rfl
    have hac : a = c :=
      List.inj_on_of_nodup_map hid ha hc (by rw [hacid, hcid])
    subst hac
    rw [if_pos hroom] at hfa
    simp [trySend, not_lt.mpr hfull] at hfa
  · intro hroom
    exact List.mem_filterMap.mpr ⟨c, hc, by simp [hroom]⟩

/-- C9 witness: three concrete connections — one saturated in the room,
one with space in the room, one in another room. -/
def c9Full : ClientConn := { cid := 1, room := some "room1", send := [.null], sendCap := 1 }

def c9Free : ClientConn := { cid := 2, room := some "room1", send := [], sendCap := 1 }

def c9Other : ClientConn := { cid := 3, room := some "room2", send := [], sendCap := 1 }

theorem broadcast_spec_witness :
    roomBroadcast [] 100 EventKind.gameResult = ([EventKind.gameResult], false) ∧
    ({ c9Free with send := c9Free.send ++ [Json.bool true] } ∈
      broadcastToRoom [c9Full, c9Free, c9Other] "room1" (Json.bool true)) ∧
    (∀ c2 ∈ broadcastToRoom [c9Full, c9Free, c9Other] "room1" (Json.bool true),
      c2.cid ≠ c9Full.cid) ∧
    (c9Other ∈ broadcastToRoom [c9Full, c9Free, c9Other] "room1" (Json.bool true)) := by
  have hnodup : ([c9Full, c9Free, c9Other].map ClientConn.cid).Nodup := by
    simp [c9Full, c9Free, c9Other]
  refine ⟨?_, ?_, ?_, ?_⟩
  · exact (broadcast_spec [] 100 EventKind.gameResult [c9Full, c9Free, c9Other]
      "room1" (Json.bool true) c9Free hnodup (by simp)).1 (by decide)
  · exact (broadcast_spec [] 100 EventKind.gameResult [c9Full, c9Free, c9Other]
      "room1" (Json.bool true) c9Free hnodup (by simp)).2.2.1 (by decide) (by decide)
  · exact (broadcast_spec [] 100 EventKind.gameResult [c9Full, c9Free, c9Other]
      "room1" (Json.bool true) c9Full hnodup (by simp)).2.2.2.1 (by decide) (by decide)
  · exact (broadcast_spec [] 100 EventKind.gameResult [c9Full, c9Free, c9Other]
      "room1" (Json.bool true) c9Other hnodup (by simp)).2.2.2.2 (by decide)

/-! ## C8: envelope encode/decode round-trip -/

/-- C8 counterexample input: a `bet_placed` envelope whose payload is
the typed `BetData` struct, as produced by `PlaceBet`. -/
def c8Message : WireMessage :=
  { type := "bet_placed", roomID := "room1", playerID := "p1", timestamp := "t0"
    , data := GoValue.betData "p1" 10 headsSide "bet_3" }

/-- C8 counterexample.  Decoding the encoding of a typed envelope does
not return an equal envelope: the payload comes back as the generic
JSON value `Unmarshal` produces into an `interface{}`, not as the
original `BetData` struct, so the round-trip is not the identity. -/
theorem json_roundtrip_not_identity :
    fromJSONMessage (toJSONMessage c8Message) ≠ some c8Message := by
  have hcomp : fromJSONMessage (toJSONMessage c8Message) =
      some { c8Message with data := GoValue.json (encodeGoValue c8Message.data) } := rfl
  rw [hcomp]
  intro h
  have hdata := congrArg WireMessage.data (Option.some.inj h)
  exact GoValue.noConfusion hdata

/-- C8 amended.  Decoding the encoding of any envelope yields an
envelope with the same kind, room id, player id and timestamp, whose
payload is the JSON value of the original payload; in particular the
round-trip is the identity on every envelope whose payload is already a
generic JSON value (such as any envelope previously received from the
wire). -/
theorem json_roundtrip_spec (m : WireMessage) :
    fromJSONMessage (toJSONMessage m) =
      some { m with data := GoValue.json (encodeGoValue m.data) } := by
  rfl

/-! ## C3: round settlement -/

theorem settleStep_lookup_ne (coin : Side) (ratio : ℚ)
    (acc : List (String × RoomPlayer) × List (String × PlayerResult))
    (e : String × BetData) (pid : String) (hne : e.1 ≠ pid) :
    lookupA (settleStep coin ratio acc e).1 pid = lookupA acc.1 pid ∧
    lookupA (settleStep coin ratio acc e).2 pid = lookupA acc.2 pid := by
  unfold settleStep
  cases h : lookupA acc.1 e.1 with
  | none => exact ⟨rfl, rfl⟩
  | some p =>
    exact ⟨lookupA_insertA_ne _ _ _ _ hne, lookupA_insertA_ne _ _ _ _ hne⟩

theorem foldl_settleStep_not_mem (coin : Side) (ratio : ℚ) :
    ∀ (bets : List (String × BetData))
      (acc : List (String × RoomPlayer) × List (String × PlayerResult))
      (pid : String), pid ∉ bets.map Prod.fst →
      lookupA (bets.foldl (settleStep coin ratio) acc).1 pid = lookupA acc.1 pid ∧
      lookupA (bets.foldl (settleStep coin ratio) acc).2 pid = lookupA acc.2 pid := by
  intro bets
  induction bets with
  | nil => intro acc pid _; exact ⟨rfl, rfl⟩
  | cons e tl ih =>
    intro acc pid hmem
    have hne : e.1 ≠ pid := by
      intro hcontr
      exact hmem (by simp [hcontr.symm])
    have htl : pid ∉ tl.map Prod.fst := by
      intro hcontr
      exact hmem (by simp [hcontr])
    obtain ⟨h1, h2⟩ := settleStep_lookup_ne coin ratio acc e pid hne
    obtain ⟨h3, h4⟩ := ih (settleStep coin ratio acc e) pid htl
    exact ⟨by rw [List.foldl_cons, h3, h1], by rw [List.foldl_cons, h4, h2]⟩

theorem foldl_settleStep_lookup (coin : Side) (ratio : ℚ) :
    ∀ (bets : List (String × BetData))
      (players : List (String × RoomPlayer))
      (results : List (String × PlayerResult))
      (pid : String) (b : BetData) (p : RoomPlayer),
      (bets.map Prod.fst).Nodup →
      (pid, b) ∈ bets →
      lookupA players pid = some p →
      lookupA (bets.foldl (settleStep coin ratio) (players, results)).1 pid =
        some (settlePlayer coin ratio p b) ∧
      lookupA (bets.foldl (settleStep coin ratio) (players, results)).2 pid =
        some (mkPlayerResult coin ratio p pid b) := by
  intro bets
  induction bets with
  | nil => intro players results pid b p _ hmem; cases hmem
  | cons e tl ih =>
    intro players results pid b p hnodup hmem hp
    rw [List.map_cons, List.nodup_cons] at hnodup
    obtain ⟨hnotin0, hnodup2⟩ := hnodup
    rcases List.mem_cons.mp hmem with hhead | htail
    · have hpid : e.1 = pid := by rw [← hhead]
      have hb : e.2 = b := by rw [← hhead]
      have hnotin : pid ∉ tl.map Prod.fst := by
        rwa [hpid] at hnotin0
      have hstep : settleStep coin ratio (players, results) e =
          (insertA players pid (settlePlayer coin ratio p b),
           insertA results pid (mkPlayerResult coin ratio p pid b)) := by
        unfold settleStep
        rw [show e.1 = pid from hpid, hp, hb]
      rw [List.foldl_cons, hstep]
      obtain ⟨h1, h2⟩ := foldl_settleStep_not_mem coin ratio tl
        (insertA players pid (settlePlayer coin ratio p b),
         insertA results pid (mkPlayerResult coin ratio p pid b)) pid hnotin
      exact ⟨by rw [h1]; exact lookupA_insertA_self _ _ _,
             by rw [h2]; exact lookupA_insertA_self _ _ _⟩
    · have hpidtl : pid ∈ tl.map Prod.fst := by
        exact List.mem_map.mpr ⟨(pid, b), htail, rfl⟩
      have hne : e.1 ≠ pid := by
        intro hcontr
        rw [hcontr] at hnotin0
        exact hnotin0 hpidtl
      have hkeep : lookupA (settleStep coin ratio (players, results) e).1 pid = some p := by
        rw [(settleStep_lookup_ne coin ratio (players, results) e pid hne).1]
        exact hp
      rw [List.foldl_cons]
      have := ih (settleStep coin ratio (players, results) e).1
        (settleStep coin ratio (players, results) e).2 pid b p hnodup2 htail hkeep
      simpa using this

/-- C3.  At resolution every bet is compared against the single shared
outcome stored on the round; a winning player's balance is credited
with `amount × payout ratio`, a losing player's balance is unchanged
(the debited amount is not returned), and the per-player record
(won/lost, payout, resulting balance) is retained in the round's
results. -/
theorem generateFinalResult_spec (players : List (String × RoomPlayer))
    (rd : GameRound) (ratio : ℚ) (seed : String) (coin : Side)
    (pid : String) (b : BetData) (p : RoomPlayer)
    (hnodup : (rd.bets.map Prod.fst).Nodup)
    (hb : (pid, b) ∈ rd.bets)
    (hp : lookupA players pid = some p) :
    (generateFinalResult players rd ratio seed coin).2.coinResult = coin ∧
    ∃ p1, lookupA (generateFinalResult players rd ratio seed coin).1 pid = some p1 ∧
      p1.balance = (if b.choice = coin then p.balance + b.amount * ratio
                    else p.balance) ∧
      lookupA (generateFinalResult players rd ratio seed coin).2.results pid =
        some { playerID := pid, playerName := p.name, bet := some b
               , won := b.choice == coin
               , payout := if b.choice = coin then b.amount * ratio else 0
               , newBalance := p1.balance } := by
  obtain ⟨h1, h2⟩ := foldl_settleStep_lookup coin ratio rd.bets players rd.results
    pid b p hnodup hb hp
  refine ⟨rfl, settlePlayer coin ratio p b, ?_, ?_, ?_⟩
  · exact h1
  · by_cases hwon : b.choice = coin
    · simp [settlePlayer, hwon]
    · simp [settlePlayer, hwon]
  · have hmk : mkPlayerResult coin ratio p pid b =
        { playerID := pid, playerName := p.name, bet := some b
          , won := b.choice == coin
          , payout := if b.choice = coin then b.amount * ratio else 0
          , newBalance := (settlePlayer coin ratio p b).balance } := rfl
    have hres : (generateFinalResult players rd ratio seed coin).2.results =
        (rd.bets.foldl (settleStep coin ratio) (players, rd.results)).2 := rfl
    rw [hres, h2, hmk]

/-- C3 witness: with payout ratio 2, `p1` bet 10 on the winning side
from a held balance of 90 (100 before the deduction at placement) and
ends at 110; `p2` bet 20 on the losing side from a held balance of 80
and stays at 80 — the concrete scenario of the claim. -/
def c3Bet : BetData :=
  { playerID := "p2", amount := 20, choice := tailsSide, betID := "bet_4" }

def c3P2 : RoomPlayer :=
  { c1Player with id := "p2", name := "P2", balance := 80, currentBet := some c3Bet }

def c3Round : GameRound :=
  { c1Round with bets := [("p1", c6Bet), ("p2", c3Bet)] }

def c3Players : List (String × RoomPlayer) :=
  [("p1", c6P1), ("p2", c3P2)]

theorem generateFinalResult_spec_witness :
    (generateFinalResult c3Players c3Round 2 "seed" headsSide).2.coinResult =
      headsSide ∧
    (∃ p1, lookupA (generateFinalResult c3Players c3Round 2 "seed" headsSide).1 "p1" =
        some p1 ∧ p1.balance = 110) ∧
    (∃ p2, lookupA (generateFinalResult c3Players c3Round 2 "seed" headsSide).1 "p2" =
        some p2 ∧ p2.balance = 80) := by
  obtain ⟨hcoin, p1, hp1, hbal1, _⟩ := generateFinalResult_spec c3Players c3Round 2
    "seed" headsSide "p1" c6Bet c6P1 (by decide) (by decide) (by decide)
  obtain ⟨_, p2, hp2, hbal2, _⟩ := generateFinalResult_spec c3Players c3Round 2
    "seed" headsSide "p2" c3Bet c3P2 (by decide) (by decide) (by decide)
  refine ⟨hcoin, ⟨p1, hp1, ?_⟩, ⟨p2, hp2, ?_⟩⟩
  · rw [hbal1, if_pos (by decide)]
    norm_num [c6P1, c1Player, c6Bet]
  · rw [hbal2, if_neg (by decide)]
    norm_num [c3P2, c1Player]

/-! ## C2: phase/round consistency over all reachable states -/

/-- The phase/round consistency that actually holds on reachable rooms:
the phase is `Waiting` exactly when no round is present, and a round is
present exactly in the phases `Betting`, `Revealing`, `Result` — or
`Paused`, which keeps the interrupted round. -/
def phaseRoundConsistent (r : Room) : Prop :=
  (r.gameState = GameState.waiting ↔ r.currentRound = none) ∧
  (r.currentRound ≠ none ↔
    (r.gameState = GameState.betting ∨ r.gameState = GameState.revealing ∨
     r.gameState = GameState.result ∨ r.gameState = GameState.paused))

theorem option_none_congr {α β : Type} (o1 : Option α) (o2 : Option β)
    (h : o1.isSome = o2.isSome) : o1 = none ↔ o2 = none := by
  cases o1 <;> cases o2 <;> simp_all

theorem addPlayer_phase (r : Room) (pid pname : String) (bal : ℚ) :
    (addPlayer r pid pname bal).1.gameState = r.gameState ∧
    (addPlayer r pid pname bal).1.currentRound = r.currentRound := by
  unfold addPlayer
  split <;> exact ⟨rfl, rfl⟩

theorem refundBet_isSome (p : RoomPlayer) (round : Option GameRound) (pid : String) :
    ((refundBet p round pid).2).isSome = round.isSome := by
  unfold refundBet
  cases round with
  | none => rfl
  | some rd =>
    cases h : lookupA rd.bets pid with
    | none => simp [h]
    | some bet => simp [h]

theorem removePlayer_cases (r : Room) (pid : String) :
    (removePlayer r pid).1 = r ∨
    (((removePlayer r pid).1.currentRound).isSome = (r.currentRound).isSome ∧
      ((removePlayer r pid).1.gameState = r.gameState ∨
        (r.gameState = GameState.betting ∧
         (removePlayer r pid).1.gameState = GameState.paused))) := by
  unfold removePlayer
  cases hp : lookupA r.players pid with
  | none => exact Or.inl rfl
  | some p =>
    right
    constructor
    · simp only []
      split
      · simpa [pauseGame] using refundBet_isSome p r.currentRound pid
      · simpa using refundBet_isSome p r.currentRound pid
    · simp only []
      split
      · next hcond => exact Or.inr ⟨hcond.2, rfl⟩
      · exact Or.inl rfl

theorem placeBet_phase (r : Room) (pid : String) (amount : ℚ) (choice : Side) :
    (placeBet r pid amount choice).1.gameState = r.gameState ∧
    ((placeBet r pid amount choice).1.currentRound).isSome =
      (r.currentRound).isSome := by
  unfold placeBet
  split
  · exact ⟨rfl, rfl⟩
  split
  · exact ⟨rfl, rfl⟩
  split
  · exact ⟨rfl, rfl⟩
  split
  · exact ⟨rfl, rfl⟩
  split
  · exact ⟨rfl, rfl⟩
  split
  · exact ⟨rfl, rfl⟩
  refine ⟨rfl, ?_⟩
  simp_all

theorem startGame_cases (r : Room) :
    (startGame r).1 = r ∨
    (r.gameState = GameState.waiting ∧
     (startGame r).1.gameState = GameState.betting ∧
     (((startGame r).1.currentRound).isSome = true)) := by
  unfold startGame
  split
  · exact Or.inl rfl
  · split
    · exact Or.inl rfl
    · next hwait => exact Or.inr ⟨not_not.mp hwait, rfl, rfl⟩

theorem endBettingPhase_cases (r : Room) (seed : String) (coin : Side) :
    endBettingPhase r seed coin = r ∨
    ((endBettingPhase r seed coin).gameState = GameState.waiting ∧
     (endBettingPhase r seed coin).currentRound = none) ∨
    ((endBettingPhase r seed coin).gameState = GameState.result ∧
     ((endBettingPhase r seed coin).currentRound).isSome = true) := by
  unfold endBettingPhase
  split
  · exact Or.inl rfl
  split
  · exact Or.inl rfl
  split
  · exact Or.inr (Or.inl ⟨rfl, rfl⟩)
  · exact Or.inr (Or.inr ⟨rfl, rfl⟩)

theorem roomStep_preserves (r r2 : Room) (hstep : RoomStep r r2)
    (hinv : phaseRoundConsistent r) : phaseRoundConsistent r2 := by
  obtain ⟨hw, hp⟩ := hinv
  cases hstep with
  | add pid pname bal =>
    obtain ⟨h1, h2⟩ := addPlayer_phase r pid pname bal
    exact ⟨by rw [h1, h2]; exact hw, by rw [h1, h2]; exact hp⟩
  | remove pid =>
    rcases removePlayer_cases r pid with heq | ⟨hsome, hphase⟩
    · rw [heq]; exact ⟨hw, hp⟩
    · have hnone := option_none_congr _ _ hsome
      rcases hphase with heq2 | ⟨hbet, hpause⟩
      · constructor
        · rw [heq2, hnone]; exact hw
        · rw [heq2]; exact (not_iff_not.mpr hnone).trans hp
      · have hr : r.currentRound ≠ none := hp.mpr (Or.inl hbet)
        have hr2 : (removePlayer r pid).1.currentRound ≠ none := by
          intro hcontr
          exact hr (hnone.mp hcontr)
        constructor
        · rw [hpause]
          constructor
          · intro h; cases h
          · intro h; exact absurd h hr2
        · rw [hpause]
          constructor
          · intro _; exact Or.inr (Or.inr (Or.inr rfl))
          · intro _; exact hr2
  | bet pid amount choice =>
    obtain ⟨h1, h2⟩ := placeBet_phase r pid amount choice
    have hnone := option_none_congr _ _ h2
    exact ⟨by rw [h1, hnone]; exact hw, by rw [h1]; exact (not_iff_not.mpr hnone).trans hp⟩
  | start =>
    rcases startGame_cases r with heq | ⟨_, hbet, hsome⟩
    · rw [heq]; exact ⟨hw, hp⟩
    · have hne : (startGame r).1.currentRound ≠ none := by
        intro hcontr
        rw [hcontr] at hsome
        cases hsome
      constructor
      · rw [hbet]
        constructor
        · intro h; cases h
        · intro h; exact absurd h hne
      · rw [hbet]
        constructor
        · intro _; exact Or.inl rfl
        · intro _; exact hne
  | bettingTimer seed coin =>
    rcases endBettingPhase_cases r seed coin with heq | ⟨hwait, hnone⟩ | ⟨hres, hsome⟩
    · rw [heq]; exact ⟨hw, hp⟩
    · constructor
      · rw [hwait, hnone]
        exact ⟨fun _ => rfl, fun _ => rfl⟩
      · rw [hwait, hnone]
        constructor
        · intro h; exact absurd rfl h
        · rintro (h | h | h | h) <;> cases h
    · have hne : (endBettingPhase r seed coin).currentRound ≠ none := by
        intro hcontr
        rw [hcontr] at hsome
        cases hsome
      constructor
      · rw [hres]
        constructor
        · intro h; cases h
        · intro h; exact absurd h hne
      · rw [hres]
        constructor
        · intro _; exact Or.inr (Or.inr (Or.inl rfl))
        · intro _; exact hne
  | resultTimer hassert =>
    constructor
    · exact ⟨fun _ => rfl, fun _ => rfl⟩
    · constructor
      · intro h; exact absurd rfl h
      · rintro (h | h | h | h) <;> cases h

/-- C2 amended.  In every reachable state, the phase is `Waiting` iff
no round is present, and a round is present iff the phase is `Betting`,
`Revealing`, `Result` or `Paused` (the claim omitted `Paused`:
`pauseGame` changes the phase but keeps the interrupted round). -/
theorem reachable_phaseRound_spec (id name : String) (config : RoomConfig)
    (r : Room) (hreach : Reachable id name config r) :
    (r.gameState = GameState.waiting ↔ r.currentRound = none) ∧
    (r.currentRound ≠ none ↔
      (r.gameState = GameState.betting ∨ r.gameState = GameState.revealing ∨
       r.gameState = GameState.result ∨ r.gameState = GameState.paused)) := by
  have hinit : phaseRoundConsistent (initRoom id name config) := by
    constructor
    · simp [initRoom]
    · simp [initRoom]
  have : phaseRoundConsistent r := by
    induction hreach with
    | refl => exact hinit
    | tail hsteps hstep ih => exact roomStep_preserves _ _ hstep ih
  exact this

theorem reachable_phaseRound_spec_witness :
    ((initRoom "room1" "Room 1" defaultRoomConfig).gameState = GameState.waiting ↔
      (initRoom "room1" "Room 1" defaultRoomConfig).currentRound = none) ∧
    ((initRoom "room1" "Room 1" defaultRoomConfig).currentRound ≠ none ↔
      ((initRoom "room1" "Room 1" defaultRoomConfig).gameState = GameState.betting ∨
       (initRoom "room1" "Room 1" defaultRoomConfig).gameState = GameState.revealing ∨
       (initRoom "room1" "Room 1" defaultRoomConfig).gameState = GameState.result ∨
       (initRoom "room1" "Room 1" defaultRoomConfig).gameState = GameState.paused)) :=
  reachable_phaseRound_spec "room1" "Room 1" defaultRoomConfig
    (initRoom "room1" "Room 1" defaultRoomConfig) Relation.ReflTransGen.refl

/-- The concrete trace refuting the claim as stated: two players join,
the round starts, one player leaves — the room pauses with the round
still present. -/
def c2Room0 : Room := initRoom "room1" "Room 1" defaultRoomConfig

def c2Room1 : Room := (addPlayer c2Room0 "p1" "P1" 100).1

def c2Room2 : Room := (addPlayer c2Room1 "p2" "P2" 100).1

def c2Room3 : Room := (startGame c2Room2).1

def c2Room4 : Room := (removePlayer c2Room3 "p1").1

/-- C2 counterexample.  The claimed equivalence — round present iff the
phase is `Betting`, `Revealing` or `Result` — is false: after
AddPlayer(p1), AddPlayer(p2), StartGame, RemovePlayer(p1) the room is
`Paused` with the round still present. -/
theorem phaseRound_claim_false :
    ¬ (∀ r : Room, Reachable "room1" "Room 1" defaultRoomConfig r →
        (r.currentRound ≠ none ↔
          (r.gameState = GameState.betting ∨ r.gameState = GameState.revealing ∨
           r.gameState = GameState.result))) := by
  intro hclaim
  have h01 : RoomStep c2Room0 c2Room1 := RoomStep.add c2Room0 "p1" "P1" 100
  have h12 : RoomStep c2Room1 c2Room2 := RoomStep.add c2Room1 "p2" "P2" 100
  have h23 : RoomStep c2Room2 c2Room3 := RoomStep.start c2Room2
  have h34 : RoomStep c2Room3 c2Room4 := RoomStep.remove c2Room3 "p1"
  have hreach : Reachable "room1" "Room 1" defaultRoomConfig c2Room4 :=
    Relation.ReflTransGen.tail
      (Relation.ReflTransGen.tail
        (Relation.ReflTransGen.tail
          (Relation.ReflTransGen.tail Relation.ReflTransGen.refl h01) h12) h23) h34
  have hphase := (hclaim c2Room4 hreach).mp (by decide)
  exact absurd hphase (by decide)

end Betman
